import Mathlib

/-!
# Machine-team identities, server records and trace values

A shallow embedding of

* `fdbserver/TCMachineTeamInfo.cpp` (constructor, `size`, `getMachineIDsStr`, `operator==`),
* `fdbserver/TCServerInfo.h` (the `TCServerInfo` record and `isCorrectStoreType`),
* `flow/TraceValue.h` (`truncate` on the alternatives of `TraceValue`),

followed by the properties established for them.

Conventions of the embedding.

* `std::vector<T>` is `List T`; `push_back` appends at the end.
* `std::string` is `String`, one `Char` per `char` of the C++ string, so that
  `size()` is `String.length` and `substr(0, n)` keeps the first `n` characters.
* `Reference<T>` is the record it points to.
* A failed `ASSERT` is the error result of an `Except`.
* The types `Standalone<StringRef>` and `KeyValueStoreType`, declared in headers outside
  these sources, are type parameters; what the code needs from them (`operator<` and
  `operator==` as a linear order, `toString`, decidable equality) is a type-class argument
  or a function argument.
-/

/-! ## Common types -/

/-- Modelled from the spec: the type `UID`, declared outside these sources; the spec speaks of
"a globally unique server id" and "a randomly generated team id". It is taken as two 64-bit
words, and is only ever stored and copied here. -/
structure UID where
  first : Nat
  second : Nat
  deriving DecidableEq, Repr

/-- Modelled from the spec: the record `TCMachineInfo`, declared outside these sources. The
spec gives it "a machine id" and "the set of StorageServerRecords currently located on that
machine". `TCMachineTeamInfo.cpp` reads only `machineID`, whose type is the parameter `ID`;
the servers on the machine are given by their ids. -/
structure TCMachineInfo (ID : Type) where
  machineID : ID
  serversOnMachine : List UID
  deriving DecidableEq, Repr

/-- The members of `TCMachineTeamInfo` used by `TCMachineTeamInfo.cpp`:
`machines`, `machineIDs` and the diagnostic `id`. -/
structure TCMachineTeamInfo (ID : Type) where
  machines : List (TCMachineInfo ID)
  machineIDs : List ID
  id : UID
  deriving DecidableEq, Repr

section MachineTeam

variable {ID : Type} [LinearOrder ID]

/-- The call `sort(machineIDs.begin(), machineIDs.end())`: the ascending arrangement of the vector
under `operator<` of the id type. For a linear order that arrangement is unique, so every
sorting algorithm computes this function; insertion sort is the one written down. -/
def sort (v : List ID) : List ID :=
  v.insertionSort (· ≤ ·)

/-- The loop of the constructor,
`for (int i = 0; i < machines.size(); i++) machineIDs.push_back(machines[i]->machineID);`
started from the empty vector `acc`. -/
def collectMachineIDs (machines : List (TCMachineInfo ID)) (acc : List ID) : List ID :=
  machines.foldl (fun ids m => ids ++ [m.machineID]) acc

/-- The constructor `TCMachineTeamInfo::TCMachineTeamInfo(machines)`. The value drawn from
`deterministicRandom()->randomUniqueID()` is the argument `randomUniqueID`. -/
def TCMachineTeamInfo.ctor (machines : List (TCMachineInfo ID)) (randomUniqueID : UID) :
    TCMachineTeamInfo ID :=
  { machines := machines
    machineIDs := sort (collectMachineIDs machines [])
    id := randomUniqueID }

/-- The method `TCMachineTeamInfo::getMachineIDsStr()`. The argument `idToString` is `id.contents().toString()`;
the string stream starts empty and receives, for each id in turn, the id and then `" "`. -/
def TCMachineTeamInfo.getMachineIDsStr (idToString : ID → String)
    (self : TCMachineTeamInfo ID) : String :=
  if self.machineIDs.isEmpty then
    "[unset]"
  else
    self.machineIDs.foldl (fun ss id => ss ++ idToString id ++ " ") ""

/-- The operator `TCMachineTeamInfo::operator==`: `this->machineIDs == rhs.machineIDs`. -/
def TCMachineTeamInfo.operator_eq (self rhs : TCMachineTeamInfo ID) : Bool :=
  self.machineIDs == rhs.machineIDs

end MachineTeam

/-! ### Concrete machines used in the examples

Ids are character lists under the lexicographic order, rendered by `String.mk`. -/

/-- Machine `A`, hosting one server. -/
def machineA : TCMachineInfo (List Char) := ⟨['A'], [⟨1, 1⟩]⟩

/-- Machine `B`, hosting one server. -/
def machineB : TCMachineInfo (List Char) := ⟨['B'], [⟨2, 2⟩]⟩

/-- Machine `C`, hosting one server. -/
def machineC : TCMachineInfo (List Char) := ⟨['C'], [⟨3, 3⟩]⟩

/-! ## `TCServerInfo` -/

/-- The data members of `TCServerInfo` whose types are declared in `TCServerInfo.h` itself or
are scalars: `id`, `dataInFlightToServer`, `inDesiredDC`, the current values of the two
`AsyncVar<bool>` flags, and `storeType`. `KeyValueStoreType` is a type parameter. -/
structure TCServerInfo (KeyValueStoreType : Type) where
  id : UID
  dataInFlightToServer : Int
  inDesiredDC : Bool
  wrongStoreTypeToRemove : Bool
  ssVersionTooFarBehind : Bool
  storeType : KeyValueStoreType
  deriving DecidableEq, Repr

/-- Modelled from the spec: the body of `TCServerInfo::isCorrectStoreType`, of which the
sources hold only the declaration
`bool isCorrectStoreType(KeyValueStoreType configStoreType) const;`.
The spec describes it as a "pure comparison of the record's fixed storage engine type against
the cluster's currently configured type" that "has no side effects". The result is paired with
the record as it is after the call. -/
def TCServerInfo.isCorrectStoreType {KeyValueStoreType : Type} [DecidableEq KeyValueStoreType]
    (self : TCServerInfo KeyValueStoreType) (configStoreType : KeyValueStoreType) :
    Bool × TCServerInfo KeyValueStoreType :=
  (decide (self.storeType = configStoreType), self)

/-! ## `TraceValue` -/

/-- Conversion of an `int` to `size_t` (64 bits), as performed on `maxFieldLength` both in
the comparison `value.size() > maxFieldLength` and in the call `substr(0, maxFieldLength)`. -/
def toSizeT (n : Int) : Nat :=
  (n % 2 ^ 64).toNat

/-- The struct `TraceBool`. -/
structure TraceBool where
  value : Bool

/-- The struct `TraceString`. -/
structure TraceString where
  value : String

/-- The struct `TraceNumeric`. -/
structure TraceNumeric where
  value : String

/-- The struct `TraceCounter`. -/
structure TraceCounter where
  rate : Float
  roughness : Float
  value : Int

mutual
/-- The struct `TraceVector`: `maxFieldLength` and `values`. -/
inductive TraceVector where
  | mk (maxFieldLength : Int) (values : List TraceValue) : TraceVector
/-- The struct `TraceValue`: the variant
`std::variant<TraceString, TraceBool, TraceCounter, TraceNumeric, TraceVector>`. -/
inductive TraceValue where
  | string (v : TraceString) : TraceValue
  | bool (v : TraceBool) : TraceValue
  | counter (v : TraceCounter) : TraceValue
  | numeric (v : TraceNumeric) : TraceValue
  | vector (v : TraceVector) : TraceValue
end

/-- The empty `static constexpr void TraceBool::truncate(int) {}`. -/
def TraceBool.truncate (_maxFieldLength : Int) (self : TraceBool) : TraceBool :=
  self

/-- The method `TraceString::truncate`:
`if (value.size() > maxFieldLength) value = value.substr(0, maxFieldLength) + "...";`. -/
def TraceString.truncate (maxFieldLength : Int) (self : TraceString) : TraceString :=
  if self.value.length > toSizeT maxFieldLength then
    { value := String.mk (self.value.data.take (toSizeT maxFieldLength)) ++ "..." }
  else
    self

/-- The empty `static constexpr void TraceNumeric::truncate(int) {}`. -/
def TraceNumeric.truncate (_maxFieldLength : Int) (self : TraceNumeric) : TraceNumeric :=
  self

/-- The empty `static constexpr void TraceCounter::truncate(int) {}`. -/
def TraceCounter.truncate (_maxFieldLength : Int) (self : TraceCounter) : TraceCounter :=
  self

/-- The method `TraceValue::truncate`: `std::visit` applies the `truncate` of the alternative held.
`TraceVector::truncate` is only declared in `TraceValue.h`; it is the argument
`vectorTruncate`. -/
def TraceValue.truncate (vectorTruncate : Int → TraceVector → TraceVector)
    (maxFieldLength : Int) : TraceValue → TraceValue
  | .string v => .string (v.truncate maxFieldLength)
  | .bool v => .bool (v.truncate maxFieldLength)
  | .counter v => .counter (v.truncate maxFieldLength)
  | .numeric v => .numeric (v.truncate maxFieldLength)
  | .vector v => .vector (vectorTruncate maxFieldLength v)

/-! ## Auxiliary facts -/

theorem sort_perm {ID : Type} [LinearOrder ID] (v : List ID) : (sort v).Perm v :=
  List.perm_insertionSort _ v

theorem sort_sorted {ID : Type} [LinearOrder ID] (v : List ID) : (sort v).Sorted (· ≤ ·) :=
  List.sorted_insertionSort _ v

theorem sort_eq_iff_perm {ID : Type} [LinearOrder ID] (v w : List ID) :
    sort v = sort w ↔ v.Perm w := by
  constructor
  · intro h
    exact (sort_perm v).symm.trans (h ▸ sort_perm w)
  · intro h
    exact List.eq_of_perm_of_sorted (((sort_perm v).trans h).trans (sort_perm w).symm)
      (sort_sorted v) (sort_sorted w)

theorem sort_strict {ID : Type} [LinearOrder ID] (v : List ID) (h : v.Nodup) :
    (sort v).Sorted (· < ·) :=
  (sort_sorted v).lt_of_le ((sort_perm v).nodup_iff.mpr h)

theorem collectMachineIDs_eq {ID : Type} (machines : List (TCMachineInfo ID)) (acc : List ID) :
    collectMachineIDs machines acc = acc ++ machines.map (·.machineID) := by
  induction machines generalizing acc with
  | nil => simp [collectMachineIDs]
  | cons m ms ih =>
    have := ih (acc ++ [m.machineID])
    simp only [collectMachineIDs, List.foldl_cons] at this ⊢
    simp [this]

theorem ctor_machineIDs {ID : Type} [LinearOrder ID] (machines : List (TCMachineInfo ID))
    (u : UID) :
    (TCMachineTeamInfo.ctor machines u).machineIDs = sort (machines.map (·.machineID)) := by
  simp [TCMachineTeamInfo.ctor, collectMachineIDs_eq]

theorem ctor_machineIDs_length {ID : Type} [LinearOrder ID]
    (machines : List (TCMachineInfo ID)) (u : UID) :
    (TCMachineTeamInfo.ctor machines u).machineIDs.length = machines.length := by
  rw [ctor_machineIDs]
  simpa using (sort_perm (machines.map (·.machineID))).length_eq

/-- The stream contents after the loop of `getMachineIDsStr`, started from `acc`, on a
non-empty vector: the ids joined by single spaces after `acc`, then one more space. -/
theorem stream_eq_intercalate {ID : Type} (f : ID → String) (x : ID) (xs : List ID)
    (acc : String) :
    (x :: xs).foldl (fun ss id => ss ++ f id ++ " ") acc
      = String.intercalate.go (acc ++ f x) " " (xs.map f) ++ " " := by
  induction xs generalizing x acc with
  | nil => simp [String.intercalate.go]
  | cons y ys ih =>
    have := ih y (acc ++ f x ++ " ")
    simp only [List.foldl_cons, List.map_cons, String.intercalate.go] at this ⊢
    exact this

/-- On a non-empty vector the rendered string ends in a space. -/
theorem stream_getLast {ID : Type} (f : ID → String) (x : ID) (xs : List ID) (acc : String) :
    ((x :: xs).foldl (fun ss id => ss ++ f id ++ " ") acc).data.getLast? = some ' ' := by
  induction xs generalizing x acc with
  | nil => simp [String.data_append]
  | cons y ys ih =>
    have := ih y (acc ++ f x ++ " ")
    simpa only [List.foldl_cons] using this

theorem operator_eq_iff {ID : Type} [LinearOrder ID] (a b : TCMachineTeamInfo ID) :
    a.operator_eq b = true ↔ a.machineIDs = b.machineIDs := by
  simp [TCMachineTeamInfo.operator_eq]

/-! ## Properties of `TCMachineTeamInfo` -/

/-- C1: for a non-empty list of machines with pairwise distinct machine ids and any
permutation of it, the identity constructed from the list and the one constructed from the
permutation compare equal under `operator==`, whatever random ids the two draw. -/
theorem ctor_operator_eq_of_perm {ID : Type} [LinearOrder ID]
    (machines machines' : List (TCMachineInfo ID)) (u u' : UID)
    (_hne : machines ≠ []) (_hnd : (machines.map (·.machineID)).Nodup)
    (hp : machines'.Perm machines) :
    (TCMachineTeamInfo.ctor machines u).operator_eq (TCMachineTeamInfo.ctor machines' u')
      = true := by
  rw [operator_eq_iff, ctor_machineIDs, ctor_machineIDs, sort_eq_iff_perm]
  exact (hp.map _).symm

/-- Witness of C1: machines `A, B, C` against `C, A, B`. -/
theorem ctor_operator_eq_of_perm_witness :
    [machineA, machineB, machineC] ≠ [] ∧
    ([machineA, machineB, machineC].map (·.machineID)).Nodup ∧
    [machineC, machineA, machineB].Perm [machineA, machineB, machineC] ∧
    (TCMachineTeamInfo.ctor [machineA, machineB, machineC] ⟨1, 2⟩).operator_eq
      (TCMachineTeamInfo.ctor [machineC, machineA, machineB] ⟨3, 4⟩) = true :=
  ⟨by decide, by decide, by decide,
    ctor_operator_eq_of_perm [machineA, machineB, machineC] [machineC, machineA, machineB]
      ⟨1, 2⟩ ⟨3, 4⟩ (by decide) (by decide) (by decide)⟩

/-- C2: the `machineIDs` stored by the constructor is a permutation of the ids of the input
machines, it is ascending, and its length is the number of input machines; when the input
ids are pairwise distinct it is strictly ascending and has no duplicates. -/
theorem ctor_machineIDs_sorted_perm {ID : Type} [LinearOrder ID]
    (machines : List (TCMachineInfo ID)) (u : UID) :
    (TCMachineTeamInfo.ctor machines u).machineIDs.Perm (machines.map (·.machineID)) ∧
    (TCMachineTeamInfo.ctor machines u).machineIDs.Sorted (· ≤ ·) ∧
    (TCMachineTeamInfo.ctor machines u).machineIDs.length = machines.length ∧
    ((machines.map (·.machineID)).Nodup →
      (TCMachineTeamInfo.ctor machines u).machineIDs.Sorted (· < ·) ∧
      (TCMachineTeamInfo.ctor machines u).machineIDs.Nodup) := by
  refine ⟨?_, ?_, ctor_machineIDs_length machines u, fun h => ⟨?_, ?_⟩⟩ <;> rw [ctor_machineIDs]
  · exact sort_perm _
  · exact sort_sorted _
  · exact sort_strict _ h
  · exact (sort_perm _).nodup_iff.mpr h

/-- Witness of C2: the ids of `C, A, B` are pairwise distinct and are stored strictly
ascending. -/
theorem ctor_machineIDs_sorted_perm_witness :
    ([machineC, machineA, machineB].map (·.machineID)).Nodup ∧
    (TCMachineTeamInfo.ctor [machineC, machineA, machineB] ⟨1, 2⟩).machineIDs.Sorted (· < ·) ∧
    (TCMachineTeamInfo.ctor [machineC, machineA, machineB] ⟨1, 2⟩).machineIDs.Nodup :=
  ⟨by decide,
    (ctor_machineIDs_sorted_perm [machineC, machineA, machineB] ⟨1, 2⟩).2.2.2 (by decide)⟩

/-- C5: for every list of machines and every permutation of it, `getMachineIDsStr()` on the
identity constructed from the list and on the identity constructed from the permutation
return the same string. -/
theorem getMachineIDsStr_of_perm {ID : Type} [LinearOrder ID] (idToString : ID → String)
    (machines machines' : List (TCMachineInfo ID)) (u u' : UID)
    (hp : machines'.Perm machines) :
    (TCMachineTeamInfo.ctor machines u).getMachineIDsStr idToString =
      (TCMachineTeamInfo.ctor machines' u').getMachineIDsStr idToString := by
  have h : (TCMachineTeamInfo.ctor machines u).machineIDs =
      (TCMachineTeamInfo.ctor machines' u').machineIDs := by
    rw [ctor_machineIDs, ctor_machineIDs, sort_eq_iff_perm]
    exact (hp.map _).symm
  simp only [TCMachineTeamInfo.getMachineIDsStr, h]

/-- Witness of C5: machines `C, A, B` against `A, B, C`. -/
theorem getMachineIDsStr_of_perm_witness :
    [machineA, machineB, machineC].Perm [machineC, machineA, machineB] ∧
    (TCMachineTeamInfo.ctor [machineC, machineA, machineB] ⟨5, 6⟩).getMachineIDsStr String.mk =
      (TCMachineTeamInfo.ctor [machineA, machineB, machineC] ⟨7, 8⟩).getMachineIDsStr
        String.mk :=
  ⟨by decide,
    getMachineIDsStr_of_perm String.mk [machineC, machineA, machineB]
      [machineA, machineB, machineC] ⟨5, 6⟩ ⟨7, 8⟩ (by decide)⟩

/-- C6: on every identity, `getMachineIDsStr()` returns `"[unset]"` exactly when the
machine-id list is empty, whatever strings `idToString` gives to the ids; the function is
total, so the call on an empty list returns normally. -/
theorem getMachineIDsStr_eq_unset_iff {ID : Type} [LinearOrder ID] (idToString : ID → String)
    (t : TCMachineTeamInfo ID) :
    t.getMachineIDsStr idToString = "[unset]" ↔ t.machineIDs = [] := by
  obtain ⟨ms, ids, u⟩ := t
  cases ids with
  | nil => simp [TCMachineTeamInfo.getMachineIDsStr]
  | cons x xs =>
    have hlast := stream_getLast idToString x xs ""
    constructor
    · intro h
      simp only [TCMachineTeamInfo.getMachineIDsStr, List.isEmpty_cons, Bool.false_eq_true,
        if_false] at h
      rw [h] at hlast
      exact absurd hlast (by decide)
    · intro h
      exact absurd h (by simp)

/-- C7, as the code has it: on an identity constructed from a non-empty list of machines,
`getMachineIDsStr()` returns the strings of the machine ids in ascending order, each one
followed by a single space: the sorted ids joined by single spaces, then one trailing
space. -/
theorem getMachineIDsStr_ctor {ID : Type} [LinearOrder ID] (idToString : ID → String)
    (machines : List (TCMachineInfo ID)) (u : UID) (hne : machines ≠ []) :
    (TCMachineTeamInfo.ctor machines u).getMachineIDsStr idToString =
      String.intercalate " " ((sort (machines.map (·.machineID))).map idToString) ++ " " := by
  have hids := ctor_machineIDs machines u
  have hlen : (sort (machines.map (·.machineID))).length = machines.length := by
    simpa using (sort_perm (machines.map (·.machineID))).length_eq
  cases hs : sort (machines.map (·.machineID)) with
  | nil =>
    rw [hs] at hlen
    exact absurd (List.length_eq_zero.mp hlen.symm) hne
  | cons x xs =>
    rw [hs] at hids
    simp only [TCMachineTeamInfo.getMachineIDsStr, hids, List.isEmpty_cons, Bool.false_eq_true,
      if_false, List.map_cons, String.intercalate]
    rw [stream_eq_intercalate]
    simp

/-- Witness of C7 as amended: machines `A, B, C` give `"A B C "`. -/
theorem getMachineIDsStr_ctor_witness :
    [machineA, machineB, machineC] ≠ [] ∧
    (TCMachineTeamInfo.ctor [machineA, machineB, machineC] ⟨9, 9⟩).getMachineIDsStr String.mk =
      String.intercalate " "
        ((sort ([machineA, machineB, machineC].map (·.machineID))).map String.mk) ++ " " :=
  ⟨by decide,
    getMachineIDsStr_ctor String.mk [machineA, machineB, machineC] ⟨9, 9⟩ (by decide)⟩

/-- C7 as stated fails: machines `A, B, C` render as `"A B C "`, with a space after the last
id, and not as the sorted ids joined by single spaces, which is `"A B C"`. -/
theorem getMachineIDsStr_ctor_counterexample :
    [machineA, machineB, machineC] ≠ [] ∧
    (TCMachineTeamInfo.ctor [machineA, machineB, machineC] ⟨9, 9⟩).getMachineIDsStr String.mk
      = "A B C " ∧
    String.intercalate " "
      ((sort ([machineA, machineB, machineC].map (·.machineID))).map String.mk) = "A B C" ∧
    (TCMachineTeamInfo.ctor [machineA, machineB, machineC] ⟨9, 9⟩).getMachineIDsStr String.mk
      ≠ String.intercalate " "
          ((sort ([machineA, machineB, machineC].map (·.machineID))).map String.mk) := by
  decide

/-- C8: `a == b` holds exactly when the stored machine-id lists are equal, and replacing the
diagnostic ids and the backing machine lists of `a` and `b` does not change the result;
two identities constructed from machine lists with pairwise distinct ids compare equal
exactly when the two lists hold the same set of machine ids, and unequal when the sets
differ. -/
theorem operator_eq_spec {ID : Type} [LinearOrder ID] (a b : TCMachineTeamInfo ID)
    (ma mb : List (TCMachineInfo ID)) (ia ib : UID)
    (machines₁ machines₂ : List (TCMachineInfo ID)) (u₁ u₂ : UID) :
    (a.operator_eq b = true ↔ a.machineIDs = b.machineIDs) ∧
    (TCMachineTeamInfo.operator_eq { a with machines := ma, id := ia }
        { b with machines := mb, id := ib } = a.operator_eq b) ∧
    ((machines₁.map (·.machineID)).Nodup → (machines₂.map (·.machineID)).Nodup →
      ((TCMachineTeamInfo.ctor machines₁ u₁).operator_eq (TCMachineTeamInfo.ctor machines₂ u₂)
          = true ↔
        ∀ x, x ∈ machines₁.map (·.machineID) ↔ x ∈ machines₂.map (·.machineID)) ∧
      ((¬ ∀ x, x ∈ machines₁.map (·.machineID) ↔ x ∈ machines₂.map (·.machineID)) →
        (TCMachineTeamInfo.ctor machines₁ u₁).operator_eq
          (TCMachineTeamInfo.ctor machines₂ u₂) = false)) := by
  refine ⟨operator_eq_iff a b, rfl, fun h₁ h₂ => ?_⟩
  have key : (TCMachineTeamInfo.ctor machines₁ u₁).operator_eq
      (TCMachineTeamInfo.ctor machines₂ u₂) = true ↔
      ∀ x, x ∈ machines₁.map (·.machineID) ↔ x ∈ machines₂.map (·.machineID) := by
    rw [operator_eq_iff, ctor_machineIDs, ctor_machineIDs, sort_eq_iff_perm]
    exact List.perm_ext_iff_of_nodup h₁ h₂
  refine ⟨key, fun hne => ?_⟩
  cases hv : (TCMachineTeamInfo.ctor machines₁ u₁).operator_eq
      (TCMachineTeamInfo.ctor machines₂ u₂) with
  | false => rfl
  | true => exact absurd (key.mp hv) hne

/-- Witness of C8: `A, B` and `B, C` have pairwise distinct ids and different sets of ids, and
the identities constructed from them compare unequal. -/
theorem operator_eq_spec_witness :
    ([machineA, machineB].map (·.machineID)).Nodup ∧
    ([machineB, machineC].map (·.machineID)).Nodup ∧
    (¬ ∀ x, x ∈ [machineA, machineB].map (·.machineID) ↔
        x ∈ [machineB, machineC].map (·.machineID)) ∧
    (TCMachineTeamInfo.ctor [machineA, machineB] ⟨1, 0⟩).operator_eq
        (TCMachineTeamInfo.ctor [machineB, machineC] ⟨2, 0⟩) = false :=
  have hne : ¬ ∀ x, x ∈ [machineA, machineB].map (·.machineID) ↔
      x ∈ [machineB, machineC].map (·.machineID) :=
    fun h => absurd ((h ['A']).mp (by decide)) (by decide)
  ⟨by decide, by decide, hne,
    ((operator_eq_spec (TCMachineTeamInfo.mk [] [] ⟨0, 0⟩) (TCMachineTeamInfo.mk [] [] ⟨0, 0⟩)
      [] [] ⟨0, 0⟩ ⟨0, 0⟩ [machineA, machineB] [machineB, machineC] ⟨1, 0⟩ ⟨2, 0⟩).2.2
      (by decide) (by decide)).2 hne⟩

/-! ## Properties of `TCServerInfo` -/

/-- C9: `isCorrectStoreType(configStoreType)` returns true exactly when the record's
`storeType` equals `configStoreType`, leaves the record as it was, and gives the same result
whatever the values of the flags `wrongStoreTypeToRemove` and `ssVersionTooFarBehind`. -/
theorem isCorrectStoreType_spec {KeyValueStoreType : Type} [DecidableEq KeyValueStoreType]
    (s : TCServerInfo KeyValueStoreType) (configStoreType : KeyValueStoreType)
    (wrong behind : Bool) :
    ((s.isCorrectStoreType configStoreType).1 = true ↔ s.storeType = configStoreType) ∧
    (s.isCorrectStoreType configStoreType).2 = s ∧
    (TCServerInfo.isCorrectStoreType
        { s with wrongStoreTypeToRemove := wrong, ssVersionTooFarBehind := behind }
        configStoreType).1 = (s.isCorrectStoreType configStoreType).1 := by
  simp [TCServerInfo.isCorrectStoreType]

/-! ## Properties of `TraceValue::truncate` -/

theorem toSizeT_of_nonneg (n : Int) (h0 : 0 ≤ n) (hn : n < 2 ^ 31) : toSizeT n = n.toNat := by
  unfold toSizeT
  rw [Int.emod_eq_of_lt h0 (by omega)]

theorem truncate_long (v : TraceString) (k : Nat) (h : k < v.value.length) :
    (String.mk (v.value.data.take k) ++ "...").data = v.value.data.take k ++ ['.', '.', '.'] ∧
    (String.mk (v.value.data.take k) ++ "...").length = k + 3 := by
  have hk : k ≤ v.value.data.length := le_of_lt h
  constructor
  · rfl
  · show (v.value.data.take k ++ ['.', '.', '.']).length = k + 3
    rw [List.length_append, List.length_take, Nat.min_eq_left hk]
    rfl

/-- C10: for a maxFieldLength `n ≥ 0` (an `int`), `TraceString::truncate(n)` leaves a value
of length at most `n` unchanged and replaces a longer one by its first `n` characters
followed by `"..."`, of length `n + 3`; truncating a second time changes nothing; and
`TraceValue::truncate` applies this to a `TraceString` and leaves `TraceBool`,
`TraceNumeric` and `TraceCounter` unchanged for every argument. -/
theorem truncate_spec (vectorTruncate : Int → TraceVector → TraceVector) (v : TraceString)
    (n : Int) (h0 : 0 ≤ n) (hn : n < 2 ^ 31) :
    ((v.value.length : Int) ≤ n → v.truncate n = v) ∧
    (n < (v.value.length : Int) →
      (v.truncate n).value = String.mk (v.value.data.take n.toNat) ++ "..." ∧
      ((v.truncate n).value.length : Int) = n + 3) ∧
    (v.truncate n).truncate n = v.truncate n ∧
    TraceValue.truncate vectorTruncate n (.string v) = .string (v.truncate n) ∧
    TraceValue.truncate vectorTruncate n (TraceValue.truncate vectorTruncate n (.string v))
      = TraceValue.truncate vectorTruncate n (.string v) ∧
    (∀ (m : Int) (b : TraceBool), TraceValue.truncate vectorTruncate m (.bool b) = .bool b) ∧
    (∀ (m : Int) (x : TraceNumeric),
      TraceValue.truncate vectorTruncate m (.numeric x) = .numeric x) ∧
    (∀ (m : Int) (c : TraceCounter),
      TraceValue.truncate vectorTruncate m (.counter c) = .counter c) := by
  have hsz := toSizeT_of_nonneg n h0 hn
  have hshort : (v.value.length : Int) ≤ n → v.truncate n = v := by
    intro h
    have : ¬ v.value.length > n.toNat := by omega
    simp [TraceString.truncate, hsz, this]
  have hlong : n < (v.value.length : Int) →
      v.truncate n = { value := String.mk (v.value.data.take n.toNat) ++ "..." } := by
    intro h
    have : v.value.length > n.toNat := by omega
    simp [TraceString.truncate, hsz, this]
  have hidem : (v.truncate n).truncate n = v.truncate n := by
    by_cases h : (v.value.length : Int) ≤ n
    · rw [hshort h, hshort h]
    · have hlt : n.toNat < v.value.length := by omega
      obtain ⟨hdata, hlen⟩ := truncate_long v n.toNat hlt
      rw [hlong (by omega)]
      have hgt : (String.mk (v.value.data.take n.toNat) ++ "...").length > n.toNat := by
        rw [hlen]; omega
      have htake : (String.mk (v.value.data.take n.toNat) ++ "...").data.take n.toNat
          = v.value.data.take n.toNat := by
        rw [hdata]
        have hl : (v.value.data.take n.toNat).length = n.toNat := by
          rw [List.length_take]
          exact Nat.min_eq_left (le_of_lt hlt)
        rw [List.take_append_of_le_length (le_of_eq hl.symm), List.take_of_length_le (le_of_eq hl)]
      simp only [TraceString.truncate, hsz, hgt, if_true, htake]
  refine ⟨hshort, ?_, hidem, rfl, ?_, fun _ _ => rfl, fun _ _ => rfl, fun _ _ => rfl⟩
  · intro h
    have hlt : n.toNat < v.value.length := by omega
    rw [hlong h]
    refine ⟨rfl, ?_⟩
    rw [(truncate_long v n.toNat hlt).2]
    omega
  · show TraceValue.string ((v.truncate n).truncate n) = TraceValue.string (v.truncate n)
    rw [hidem]

/-- Witness of C10: with `n = 2`, `"hello"` becomes `"he..."`, of length `5`. -/
theorem truncate_spec_witness :
    (0 : Int) ≤ 2 ∧ (2 : Int) < 2 ^ 31 ∧ (2 : Int) < (("hello".length : Nat) : Int) ∧
    ((TraceString.mk "hello").truncate 2).value
      = String.mk ((TraceString.mk "hello").value.data.take (2 : Int).toNat) ++ "..." ∧
    ((((TraceString.mk "hello").truncate 2).value.length : Nat) : Int) = 2 + 3 :=
  ⟨by decide, by decide, by decide,
    (truncate_spec (fun _ t => t) (TraceString.mk "hello") 2 (by decide) (by decide)).2.1
      (by decide)⟩
